import Mathlib

/-!
Verification of the `bubblechat` terminal chat client (`src/main.go`).

The Go program is a bubbletea (Elm-architecture) application: a `model`
record, an `Update` function dispatching on the incoming message type, and
commands that resolve into further messages.  This file shallowly embeds
the state the specification's claims are about:

* `Model` embeds the Go `model` struct (main.go lines 372-385).  The
  `viewport`, lipgloss style and glamour renderer fields are derived
  presentation state; they are not tracked here.  The `textarea` component
  is tracked through its text content (`textarea.Value()` in Go).
* `Entry` embeds one element of `m.messages` (a rendered transcript line).
  The three distinct rendered shapes the program produces are kept as
  constructors: a styled user prompt line, the animated assistant
  placeholder line (whose text depends only on the spinner frame), and a
  styled assistant response line.
* `Update` embeds `func (m model) Update` (main.go lines 531-658).  A Go
  slice access that can be out of range is embedded as an `Option`, with
  `none` standing for the run-time abort.
* `GState` adds the process-global `chatMessages` history and the set of
  dispatched, unresolved commands, and `Reach` is the set of states
  reachable by the event loop from `initialModel`.

The word-wrap routine the program uses (`wordwrap.String` from the
external muesli/reflow dependency) is not part of this repository's
sources; it is modelled from the spec (see `wordwrapString`).
-/

namespace Bubblechat

/-- Role tag of a chat message, as in the go-openai constants
`ChatMessageRoleUser` / `ChatMessageRoleAssistant`. -/
inductive Role
  | user
  | assistant
deriving DecidableEq, Repr

/-- One element of the process-global `chatMessages` slice
(`openai.ChatCompletionMessage`, carrying a role and content). -/
structure ChatCompletionMessage where
  role : Role
  content : String
deriving DecidableEq, Repr

/-- One element of `m.messages`: a rendered transcript line.  The program
only ever appends three shapes of string (main.go lines 559, 560, 584,
625): a prompt line `promptStyle.Render("> ") + promptTextStyle.Render(text)`,
a placeholder line `responseStyle.Render("> ") + m.spinner.View()` (whose
text is a function of the spinner frame), and a response line
`responseStyle.Render("> ") + responseTextStyle.Render(text)`.  The three
constructors embed those three pairwise-distinct rendered strings. -/
inductive Entry
  | prompt (text : String)
  | spinnerLine (frame : Nat)
  | response (text : String)
deriving DecidableEq, Repr

/-- The role a transcript entry displays: prompt lines show the user's
turn, spinner/response lines the assistant's. -/
def entryRole : Entry → Role
  | .prompt _ => .user
  | .spinnerLine _ => .assistant
  | .response _ => .assistant

/-- Whether a transcript entry is the animated assistant placeholder. -/
def isSpinnerLine : Entry → Bool
  | .spinnerLine _ => true
  | _ => false

/-- The `headerModel` struct (main.go lines 396-402); the spinner
component is tracked through its frame counter, the style field is
presentation only. -/
structure HeaderModel where
  requestDone : Bool
  requestSuccess : Bool
  statusSpinnerFrame : Nat
deriving DecidableEq, Repr

/-- Abstract header status of the spec: pending / succeeded / failed. -/
inductive HeaderStatus
  | pending
  | succeeded
  | failed
deriving DecidableEq, Repr

/-- The header status displayed by `headerModel.View` (main.go lines
404-422): spinner while the probe is unresolved, then a check mark when
`requestSuccess` and a cross otherwise. -/
def headerStatus (h : HeaderModel) : HeaderStatus :=
  if h.requestDone then
    if h.requestSuccess then .succeeded else .failed
  else .pending

/-- The `model` struct (main.go lines 372-385), restricted to the fields
the claims are about.  `textareaValue` is `m.textarea.Value()`;
`spinnerFrame` counts how often the chat spinner advanced. -/
structure Model where
  header : HeaderModel
  messages : List Entry
  textareaValue : String
  spinnerFrame : Nat
  waiting : Bool
  err : Option String
deriving DecidableEq, Repr

/-- Messages delivered to `Update` (main.go lines 545-655): key presses
(identified by their `msg.String()` as in the Go switch), spinner ticks
carrying the owning spinner's identity, `responseMsg`, `statusMsg`, and a
bare error value. -/
inductive Msg
  | key (s : String)
  | tick (id : Nat)
  | response (message : String) (err : Option String)
  | status (err : Option String)
  | errMsg (e : String)
deriving DecidableEq, Repr

/-- Commands returned by `Update` that the claims are about: `tea.Quit`,
a spinner's `Tick` (rescheduling), and the two asynchronous work units.
The component-internal commands (`textInputCmd`, `viewportCmd`,
`textarea.Blink`) carry no transition-relevant state and are omitted. -/
inductive Cmd
  | quit
  | spinnerTick (id : Nat)
  | getResponse (message : String)
  | getStatus
deriving DecidableEq, Repr

/-- Identity of the chat-wait spinner (`m.spinner.ID()`).  The bubbles
library assigns spinners distinct positive identifiers from a global
counter; the two spinners of this program are embedded as 1 and 2. -/
def chatSpinnerID : Nat := 1

/-- Identity of the header probe spinner (`m.header.statusSpinner.ID()`). -/
def headerSpinnerID : Nat := 2

/-- `viewportTextWidth` (main.go line 342). -/
def viewportTextWidth : Nat := 80

/-- The wrap width `viewportTextWidth - 3` used at main.go lines 557 and
624. -/
def wrapWidth : Nat := viewportTextWidth - 3

/-- `ta.CharLimit` (main.go line 481). -/
def charLimit : Nat := 280

/- ## Word wrap, modelled from the spec

The call sites wrap the trimmed input and the reply at `wrapWidth`
(main.go lines 557 and 624) through `wordwrap.String` of the external
muesli/reflow dependency, whose source is not part of this repository.
The spec describes the operation as pure greedy word-wrapping of the text
to the viewport text width, keeping existing newlines (spec 4.4 step 1,
4.6, 8).  The model below follows those words: each input line is split
into space-separated words which are then greedily packed into lines of
rendered width at most the limit (a single word longer than the limit
overflows on its own line). -/

/-- Modelled from the spec: the words of one line are its maximal
space-free runs. -/
def wordsOf (l : List Char) : List (List Char) :=
  (l.splitOn ' ').filter (fun w => w ≠ [])

/-- Modelled from the spec: greedily pack words into lines; `cur` is the
reversed current line, `len` its rendered width (word widths plus one
space between neighbours). -/
def wrapAcc (w : Nat) (cur : List (List Char)) (len : Nat) :
    List (List Char) → List (List (List Char))
  | [] => [cur.reverse]
  | x :: xs =>
    if len + 1 + x.length ≤ w then
      wrapAcc w (x :: cur) (len + 1 + x.length) xs
    else
      cur.reverse :: wrapAcc w [x] x.length xs

/-- Modelled from the spec: the greedy line groups of a word list. -/
def wrapWords (w : Nat) : List (List Char) → List (List (List Char))
  | [] => []
  | x :: xs => wrapAcc w [x] x.length xs

/-- Modelled from the spec: the output lines one input line contributes:
its greedy groups, each rendered with single spaces; a wordless input
line stays one empty line. -/
def wrapLine (w : Nat) (l : List Char) : List (List Char) :=
  match wrapWords w (wordsOf l) with
  | [] => [[]]
  | gs => gs.map (List.intercalate [' '])

/-- Modelled from the spec: word-wrap of a character list, preserving
newlines. -/
def wordwrapChars (w : Nat) (l : List Char) : List Char :=
  List.intercalate ['\n'] (((l.splitOn '\n').map (wrapLine w)).flatten)

/-- Modelled from the spec: `wordwrap.String(s, limit)` of the external
muesli/reflow dependency (absent from this repository's sources), as the
spec describes it: greedy word-wrap of `s` to width `limit`, keeping
newlines. -/
def wordwrapString (s : String) (limit : Nat) : String :=
  (wordwrapChars limit s.toList).asString

/-- The rendered width after starting from width `len` and appending each
word with its separating space. -/
def chainEnd (len : Nat) : List (List Char) → Nat
  | [] => len
  | x :: xs => chainEnd (len + 1 + x.length) xs

/-- Starting from a line of rendered width `len`, every following word
still fits when appended greedily. -/
def chainFits (w : Nat) : Nat → List (List Char) → Prop
  | _, [] => True
  | len, x :: xs => len + 1 + x.length ≤ w ∧ chainFits w (len + 1 + x.length) xs

/-- The accumulator states `wrapAcc` actually visits: a first word placed
unconditionally, then words accepted by the width test. -/
inductive GoodAcc (w : Nat) : List (List Char) → Nat → Prop
  | single (x : List Char) : GoodAcc w [x] x.length
  | push {cur : List (List Char)} {len : Nat} (x : List Char)
      (h : GoodAcc w cur len) (hfit : len + 1 + x.length ≤ w) :
      GoodAcc w (x :: cur) (len + 1 + x.length)

/- ## The model and its transition function -/

/-- `strings.TrimSpace`: drop whitespace from both ends. -/
def trimSpace (s : String) : String :=
  (((s.toList.dropWhile Char.isWhitespace).reverse.dropWhile
    Char.isWhitespace).reverse).asString

/-- The Go slice idiom `append(a[:len(a)-1], e)` used at main.go lines 585
and 626: replace the final element.  On an empty slice the Go expression
aborts with an index out of range; that case is `none`. -/
def replaceLast (l : List Entry) (e : Entry) : Option (List Entry) :=
  if l = [] then none else some (l.dropLast ++ [e])

/-- The strings of the Go switch `case "ctrl+c", "q", "esc"` (main.go
line 548). -/
def isQuitKey (s : String) : Bool :=
  s = "ctrl+c" || s = "q" || s = "esc"

/-- The textarea component's reaction to a key press, restricted to its
text content: a single printable character is inserted subject to
`CharLimit`; the bound keys handled in the outer switch ("enter" with
`InsertNewline` disabled, the quit keys) leave the content unchanged. -/
def textareaKey (v : String) (s : String) : String :=
  if s.length = 1 && v.length < charLimit then v ++ s else v

/-- `func (m model) Update` (main.go lines 531-658), restricted to the
modelled fields.  Structure mirrors the Go source:

* the textarea and chat spinner component updates at the top (lines
  538-543): a key press edits the textarea; a tick whose identity the
  chat spinner accepts advances its frame, but only while `m.waiting`;
* the `tea.KeyMsg` switch (lines 546-573): quit keys; the unguarded
  "enter" branch appends the wrapped prompt and the placeholder, resets
  the textarea, sets `waiting` and dispatches `GetResponseCmd`;
* the `spinner.TickMsg` branch (lines 575-609) keyed on the tick identity;
* the `responseMsg` branch (lines 611-636);
* the `statusMsg` branch (lines 638-648);
* the `error` branch (lines 650-653).

`none` embeds the abort of `append(m.messages[:len(m.messages)-1], _)` on
an empty slice. -/
def Update (m : Model) (msg : Msg) : Option (Model × List Cmd) :=
  let ta :=
    match msg with
    | .key s => textareaKey m.textareaValue s
    | _ => m.textareaValue
  let sf :=
    match msg with
    | .tick id =>
      if m.waiting && (id = 0 || id = chatSpinnerID) then m.spinnerFrame + 1
      else m.spinnerFrame
    | _ => m.spinnerFrame
  let m := { m with textareaValue := ta, spinnerFrame := sf }
  match msg with
  | .key s =>
    if isQuitKey s then some (m, [Cmd.quit])
    else if s = "enter" then
      let message := wordwrapString (trimSpace m.textareaValue) wrapWidth
      some ({ m with
                messages := m.messages ++
                  [Entry.prompt message, Entry.spinnerLine m.spinnerFrame],
                textareaValue := "",
                waiting := true },
            [Cmd.spinnerTick chatSpinnerID, Cmd.getResponse message])
    else some (m, [])
  | .tick id =>
    if id = chatSpinnerID then
      if !m.waiting then some (m, [])
      else
        let m := { m with spinnerFrame := m.spinnerFrame + 1 }
        match replaceLast m.messages (Entry.spinnerLine m.spinnerFrame) with
        | none => none
        | some msgs =>
          some ({ m with messages := msgs, textareaValue := "" },
                [Cmd.spinnerTick chatSpinnerID])
    else if id = headerSpinnerID then
      if m.header.requestDone then some (m, [])
      else
        some ({ m with header :=
                  { m.header with
                      statusSpinnerFrame := m.header.statusSpinnerFrame + 1 } },
              [Cmd.spinnerTick headerSpinnerID])
    else some (m, [])
  | .response text err =>
    let m := { m with waiting := false }
    match err with
    | some e => some ({ m with err := some e }, [])
    | none =>
      let message := wordwrapString text wrapWidth
      match replaceLast m.messages (Entry.response message) with
      | none => none
      | some msgs => some ({ m with messages := msgs }, [])
  | .status err =>
    let m := { m with header := { m.header with requestDone := true } }
    match err with
    | some e => some ({ m with err := some e }, [])
    | none =>
      some ({ m with header := { m.header with requestSuccess := true } }, [])
  | .errMsg e => some ({ m with err := some e }, [])

/-- `initialModel` (main.go lines 424-445), restricted to the modelled
fields: empty transcript, empty input, probe unresolved, not waiting, no
error. -/
def initialModel : Model :=
  { header := { requestDone := false, requestSuccess := false,
                statusSpinnerFrame := 0 },
    messages := [],
    textareaValue := "",
    spinnerFrame := 0,
    waiting := false,
    err := none }

/- ## The event loop -/

/-- Process-global state: the model, the global `chatMessages` history
(main.go line 358), the dispatched but unresolved `GetResponseCmd`s (each
carries the message it closed over), and whether the startup
`GetStatusCmd` (dispatched once, from `Init`, main.go line 528) is still
unresolved. -/
structure GState where
  model : Model
  history : List ChatCompletionMessage
  pendingChats : List String
  statusPending : Bool
deriving DecidableEq, Repr

/-- The state when `tea.NewProgram(model, ...)` starts the loop. -/
def initialG : GState :=
  { model := initialModel, history := [], pendingChats := [],
    statusPending := true }

/-- The chat-completion messages dispatched by a command batch. -/
def dispatchedChats : List Cmd → List String
  | [] => []
  | Cmd.getResponse msg :: cs => msg :: dispatchedChats cs
  | _ :: cs => dispatchedChats cs

/-- Deliver one event to `Update`, recording any newly dispatched chat
completions. -/
def applyMsg (g : GState) (msg : Msg) : Option GState :=
  match Update g.model msg with
  | none => none
  | some (m, cmds) =>
    some { g with model := m,
                  pendingChats := g.pendingChats ++ dispatchedChats cmds }

/-- The body of `GetResponseCmd(message)` (main.go lines 669-695) running
to completion with a successful API reply, followed by the delivery of
its `responseMsg`: the closure appends the outgoing user turn and the
returned assistant turn to the global `chatMessages` and yields
`responseMsg{message, err: nil}`, which the loop then processes.  A
failed API call is not represented by a step: on a non-nil error the
closure dereferences `resp.Choices[0]` of an empty `Choices` slice
(main.go line 685) and aborts before any event is produced. -/
def applyRespond (g : GState) (message reply : String) : Option GState :=
  match Update g.model (Msg.response reply none) with
  | none => none
  | some (m, cmds) =>
    some { model := m,
           history := g.history ++
             [{ role := Role.user, content := message },
              { role := Role.assistant, content := reply }],
           pendingChats := g.pendingChats.erase message ++
             dispatchedChats cmds,
           statusPending := g.statusPending }

/-- The startup `GetStatusCmd` (main.go lines 697-706) resolving with
probe outcome `e` and its `statusMsg` being processed. -/
def applyStatus (g : GState) (e : Option String) : Option GState :=
  match Update g.model (Msg.status e) with
  | none => none
  | some (m, cmds) =>
    some { model := m,
           history := g.history,
           pendingChats := g.pendingChats ++ dispatchedChats cmds,
           statusPending := false }

/-- One event-loop step.  Key presses may arrive at any time; spinner
ticks carry a positive identity (the bubbles id counter starts at 1) and
may arrive late and stale; a chat completion resolves only if one was
dispatched; the probe resolves only once.  `textEdit` abstracts the
remaining textarea editing events (deletion, paste, cursor keys), which
change only the input text. -/
inductive Step : GState → GState → Prop
  | key {g g'} (s : String) (h : applyMsg g (Msg.key s) = some g') :
      Step g g'
  | textEdit {g} (v : String) :
      Step g { g with model := { g.model with textareaValue := v } }
  | tick {g g'} (id : Nat) (hpos : 0 < id)
      (h : applyMsg g (Msg.tick id) = some g') : Step g g'
  | respond {g g'} (message reply : String)
      (hmem : message ∈ g.pendingChats)
      (h : applyRespond g message reply = some g') : Step g g'
  | status {g g'} (e : Option String) (hsp : g.statusPending = true)
      (h : applyStatus g e = some g') : Step g g'
  | errMsg {g g'} (e : String) (h : applyMsg g (Msg.errMsg e) = some g') :
      Step g g'

/-- States the event loop can reach from the initial state. -/
inductive Reach : GState → Prop
  | init : Reach initialG
  | step {g g'} : Reach g → Step g g' → Reach g'

/- ## The loop invariant -/

/-- Invariant of every reachable state: the transcript length is even; it
is at least 2 while a reply is outstanding (flag set or completion
dispatched); and while waiting, the final transcript entry is the
animated assistant placeholder. -/
def Inv (g : GState) : Prop :=
  g.model.messages.length % 2 = 0 ∧
  ((g.model.waiting = true ∨ g.pendingChats ≠ []) →
    2 ≤ g.model.messages.length) ∧
  (g.model.waiting = true →
    g.model.messages.getLast?.map isSpinnerLine = some true)

/- ## Completed turns -/

/-- Typing a sequence of characters into the focused textarea: one key
event per character. -/
def typeChars (g : GState) (l : List Char) : Option GState :=
  l.foldlM (fun g c => applyMsg g (Msg.key (Char.toString c))) g

/-- One completed turn: the user types `input`, presses enter, and the
dispatched chat completion resolves successfully with `reply`, whose
`responseMsg` is then processed. -/
def doTurn (g : GState) (input reply : String) : Option GState :=
  (typeChars g input.toList).bind fun g1 =>
    (applyMsg g1 (Msg.key "enter")).bind fun g2 =>
      match g2.pendingChats with
      | [message] => applyRespond g2 message reply
      | _ => none

/-- A sequence of completed turns, each an (input, reply) pair. -/
def runTurns (g : GState) : List (String × String) → Option GState
  | [] => some g
  | (input, reply) :: ts =>
    match doTurn g input reply with
    | none => none
    | some g' => runTurns g' ts

/-- The alternating user/assistant role pattern of `n` completed turns. -/
def altRoles (n : Nat) : List Role :=
  (List.replicate n [Role.user, Role.assistant]).flatten

/-- Between turns: nothing dispatched and outstanding, and transcript and
history both hold the `2 n` entries of `n` completed turns, in
alternating role order. -/
def Quiescent (g : GState) (n : Nat) : Prop :=
  g.pendingChats = [] ∧
  g.model.messages.length = 2 * n ∧
  g.model.messages.map entryRole = altRoles n ∧
  g.history.length = 2 * n ∧
  g.history.map ChatCompletionMessage.role = altRoles n

/- ## Concrete states used to exercise the theorems -/

/-- The state right after the first submit: "enter" pressed on the empty
initial input. -/
def gEnter : GState :=
  (applyMsg initialG (Msg.key "enter")).getD initialG

/-- `gEnter` after the user additionally typed the character `a` while
the completion is outstanding. -/
def gTyped : GState :=
  (applyMsg gEnter (Msg.key "a")).getD initialG

/-- The model after the startup probe resolved with an error. -/
def mFailed : Model :=
  ((Update initialModel (Msg.status (some "probe failed"))).map
    Prod.fst).getD initialModel

end Bubblechat

namespace Bubblechat

/- ## Word-wrap: structure of the output -/

theorem splitOnP_parts {α : Type} (p : α → Bool) (l : List α) :
    ∀ q ∈ l.splitOnP p, ∀ a ∈ q, p a = false ∧ a ∈ l := by
  induction l with
  | nil =>
    intro q hq a ha
    rw [List.splitOnP_nil] at hq
    simp only [List.mem_singleton] at hq
    subst hq
    simp at ha
  | cons y ys ih =>
    intro q hq a ha
    rw [List.splitOnP_cons] at hq
    by_cases h : p y = true
    · rw [if_pos h] at hq
      rcases List.mem_cons.mp hq with h1 | h1
      · subst h1; simp at ha
      · obtain ⟨hpa, hmem⟩ := ih q h1 a ha
        exact ⟨hpa, List.mem_cons_of_mem _ hmem⟩
    · rw [if_neg h] at hq
      rcases hsp : ys.splitOnP p with _ | ⟨h0, t0⟩
      · exact absurd hsp (List.splitOnP_ne_nil p ys)
      · rw [hsp] at hq
        simp only [List.modifyHead] at hq
        rcases List.mem_cons.mp hq with h1 | h1
        · subst h1
          rcases List.mem_cons.mp ha with h2 | h2
          · subst h2
            exact ⟨by simpa using h, List.mem_cons_self _ _⟩
          · obtain ⟨hpa, hmem⟩ :=
              ih h0 (by rw [hsp]; exact List.mem_cons_self _ _) a h2
            exact ⟨hpa, List.mem_cons_of_mem _ hmem⟩
        · obtain ⟨hpa, hmem⟩ :=
            ih q (by rw [hsp]; exact List.mem_cons_of_mem _ h1) a ha
          exact ⟨hpa, List.mem_cons_of_mem _ hmem⟩

theorem splitOn_parts {α : Type} [DecidableEq α] (c : α) (l : List α) :
    ∀ q ∈ l.splitOn c, ∀ a ∈ q, a ≠ c ∧ a ∈ l := by
  intro q hq a ha
  rw [List.splitOn] at hq
  obtain ⟨hpa, hmem⟩ := splitOnP_parts (fun b => b == c) l q hq a ha
  exact ⟨by simpa using hpa, hmem⟩

theorem intercalate_cons_cons {α : Type} (sep x y : List α)
    (t : List (List α)) :
    List.intercalate sep (x :: y :: t) =
      x ++ sep ++ List.intercalate sep (y :: t) := by
  simp [List.intercalate, List.append_assoc]

theorem mem_intercalate_sep {α : Type} {sep : List α} {a : α} :
    ∀ {gs : List (List α)}, a ∈ List.intercalate sep gs →
      a ∈ sep ∨ ∃ g ∈ gs, a ∈ g := by
  intro gs
  induction gs with
  | nil =>
    intro ha
    simp [List.intercalate] at ha
  | cons x t ih =>
    intro ha
    cases t with
    | nil =>
      right
      exact ⟨x, by simp, by simpa [List.intercalate] using ha⟩
    | cons y tt =>
      rw [intercalate_cons_cons] at ha
      rcases List.mem_append.mp ha with h1 | h1
      · rcases List.mem_append.mp h1 with h2 | h2
        · right; exact ⟨x, List.mem_cons_self _ _, h2⟩
        · left; exact h2
      · rcases ih h1 with h2 | ⟨g, hg, hag⟩
        · left; exact h2
        · right; exact ⟨g, List.mem_cons_of_mem _ hg, hag⟩

theorem flatten_singletons {α : Type} (l : List α) :
    (l.map (fun a => [a])).flatten = l := by
  induction l with
  | nil => rfl
  | cons x xs ih => simp [ih]

theorem chainEnd_append_one (len : Nat) (r : List (List Char))
    (x : List Char) :
    chainEnd len (r ++ [x]) = chainEnd len r + 1 + x.length := by
  induction r generalizing len with
  | nil => rfl
  | cons y ys ih =>
    rw [List.cons_append]
    simp only [chainEnd]
    rw [ih]

theorem chainFits_append_one {w len : Nat} {r : List (List Char)}
    (h : chainFits w len r) {x : List Char}
    (hx : chainEnd len r + 1 + x.length ≤ w) :
    chainFits w len (r ++ [x]) := by
  induction r generalizing len with
  | nil => exact ⟨by simpa [chainEnd] using hx, trivial⟩
  | cons y ys ih =>
    obtain ⟨h1, h2⟩ := h
    exact ⟨h1, ih h2 (by simpa [chainEnd] using hx)⟩

theorem wrapAcc_of_chainFits {w : Nat} (xs : List (List Char)) :
    ∀ (cur : List (List Char)) (len : Nat), chainFits w len xs →
      wrapAcc w cur len xs = [cur.reverse ++ xs] := by
  induction xs with
  | nil =>
    intro cur len _
    simp [wrapAcc]
  | cons x xs ih =>
    intro cur len h
    obtain ⟨h1, h2⟩ := h
    simp only [wrapAcc]
    rw [if_pos h1, ih _ _ h2]
    simp

theorem GoodAcc_reverse {w : Nat} {cur : List (List Char)} {len : Nat}
    (h : GoodAcc w cur len) :
    ∃ f r, cur.reverse = f :: r ∧ chainFits w f.length r ∧
      chainEnd f.length r = len := by
  induction h with
  | single x => exact ⟨x, [], by simp, trivial, rfl⟩
  | push x h hfit ih =>
    obtain ⟨f, r, hrev, hcf, hce⟩ := ih
    refine ⟨f, r ++ [x], ?_, ?_, ?_⟩
    · rw [List.reverse_cons, hrev]
      simp
    · exact chainFits_append_one hcf (by rw [hce]; exact hfit)
    · rw [chainEnd_append_one, hce]

theorem wrapWords_eq_self {w : Nat} {f : List Char} {r : List (List Char)}
    (hcf : chainFits w f.length r) : wrapWords w (f :: r) = [f :: r] := by
  simp only [wrapWords]
  rw [wrapAcc_of_chainFits r [f] f.length hcf]
  simp

theorem good_group {w : Nat} {p : List Char → Prop}
    {cur : List (List Char)} {len : Nat}
    (hgood : GoodAcc w cur len) (hcur : ∀ a ∈ cur, p a) :
    cur.reverse ≠ [] ∧ (∀ a ∈ cur.reverse, p a) ∧
      wrapWords w cur.reverse = [cur.reverse] := by
  obtain ⟨f, r, hrev, hcf, _⟩ := GoodAcc_reverse hgood
  refine ⟨by rw [hrev]; simp, ?_, ?_⟩
  · intro a ha
    exact hcur a (List.mem_reverse.mp ha)
  · rw [hrev]
    exact wrapWords_eq_self hcf

theorem wrapAcc_master {w : Nat} {p : List Char → Prop} :
    ∀ (xs : List (List Char)), (∀ a ∈ xs, p a) →
    ∀ (cur : List (List Char)) (len : Nat), GoodAcc w cur len →
      (∀ a ∈ cur, p a) →
      ∀ g ∈ wrapAcc w cur len xs,
        g ≠ [] ∧ (∀ a ∈ g, p a) ∧ wrapWords w g = [g] := by
  intro xs
  induction xs with
  | nil =>
    intro _ cur len hgood hcur g hg
    simp only [wrapAcc, List.mem_singleton] at hg
    subst hg
    exact good_group hgood hcur
  | cons x xs ih =>
    intro hxs cur len hgood hcur g hg
    simp only [wrapAcc] at hg
    by_cases hfit : len + 1 + x.length ≤ w
    · rw [if_pos hfit] at hg
      refine ih (fun a ha => hxs a (List.mem_cons_of_mem _ ha))
        (x :: cur) _ (GoodAcc.push x hgood hfit) ?_ g hg
      intro a ha
      rcases List.mem_cons.mp ha with h | h
      · exact h ▸ hxs x (List.mem_cons_self _ _)
      · exact hcur a h
    · rw [if_neg hfit] at hg
      rcases List.mem_cons.mp hg with h | h
      · subst h
        exact good_group hgood hcur
      · refine ih (fun a ha => hxs a (List.mem_cons_of_mem _ ha))
          [x] x.length (GoodAcc.single x) ?_ g h
        intro a ha
        simp only [List.mem_singleton] at ha
        exact ha ▸ hxs x (List.mem_cons_self _ _)

theorem wrapWords_master {w : Nat} {p : List Char → Prop}
    (ws : List (List Char)) (hws : ∀ a ∈ ws, p a) :
    ∀ g ∈ wrapWords w ws, g ≠ [] ∧ (∀ a ∈ g, p a) ∧ wrapWords w g = [g] := by
  cases ws with
  | nil =>
    intro g hg
    simp [wrapWords] at hg
  | cons x xs =>
    intro g hg
    refine wrapAcc_master xs (fun a ha => hws a (List.mem_cons_of_mem _ ha))
      [x] x.length (GoodAcc.single x) ?_ g hg
    intro a ha
    simp only [List.mem_singleton] at ha
    exact ha ▸ hws x (List.mem_cons_self _ _)

theorem wordsOf_spec (l : List Char) :
    ∀ q ∈ wordsOf l, q ≠ [] ∧ ' ' ∉ q ∧ ∀ ch ∈ q, ch ∈ l := by
  intro q hq
  rw [wordsOf, List.mem_filter] at hq
  obtain ⟨hmem, hne⟩ := hq
  have hp := splitOn_parts ' ' l q hmem
  refine ⟨by simpa using hne, ?_, ?_⟩
  · intro hsp
    exact (hp ' ' hsp).1 rfl
  · intro ch hch
    exact (hp ch hch).2

theorem wordsOf_intercalate {ws : List (List Char)}
    (h : ∀ a ∈ ws, a ≠ [] ∧ ' ' ∉ a) :
    wordsOf (List.intercalate [' '] ws) = ws := by
  cases ws with
  | nil => rfl
  | cons x t =>
    rw [wordsOf,
        List.splitOn_intercalate _ ' ' (fun l hl => (h l hl).2) (by simp)]
    apply List.filter_eq_self.mpr
    intro a ha
    simpa using (h a ha).1

theorem wrapLine_ne_nil (w : Nat) (l : List Char) : wrapLine w l ≠ [] := by
  rcases h : wrapWords w (wordsOf l) with _ | ⟨g, gs⟩
  · simp [wrapLine, h]
  · simp [wrapLine, h]

theorem wrapLine_self {w : Nat} {l : List Char} (hl : '\n' ∉ l) :
    ∀ L ∈ wrapLine w l, '\n' ∉ L ∧ wrapLine w L = [L] := by
  intro L hL
  rcases h : wrapWords w (wordsOf l) with _ | ⟨g0, gs0⟩
  · simp only [wrapLine, h, List.mem_singleton] at hL
    subst hL
    exact ⟨by simp, rfl⟩
  · simp only [wrapLine, h] at hL
    obtain ⟨g, hg, rfl⟩ := List.mem_map.mp hL
    rw [← h] at hg
    have hwords : ∀ a ∈ wordsOf l, a ≠ [] ∧ ' ' ∉ a ∧ '\n' ∉ a := by
      intro a ha
      obtain ⟨h1, h2, h3⟩ := wordsOf_spec l a ha
      exact ⟨h1, h2, fun hn => hl (h3 _ hn)⟩
    obtain ⟨hgne, hgp, hgself⟩ := wrapWords_master (wordsOf l) hwords g hg
    constructor
    · intro hn
      rcases mem_intercalate_sep hn with h1 | ⟨a, hag, hna⟩
      · simp only [List.mem_singleton] at h1
        exact absurd h1 (by decide)
      · exact (hgp a hag).2.2 hna
    · have hw' : wordsOf (List.intercalate [' '] g) = g :=
        wordsOf_intercalate (fun a ha => ⟨(hgp a ha).1, (hgp a ha).2.1⟩)
      rw [wrapLine, hw', hgself]
      rfl

theorem outLines_ne_nil (w : Nat) (l : List Char) :
    ((l.splitOn '\n').map (wrapLine w)).flatten ≠ [] := by
  rcases h : l.splitOn '\n' with _ | ⟨l0, ls⟩
  · rw [List.splitOn] at h
    exact absurd h (List.splitOnP_ne_nil _ _)
  · intro hnil
    rw [List.map_cons, List.flatten_cons, List.append_eq_nil] at hnil
    exact wrapLine_ne_nil w l0 hnil.1

theorem mem_outLines {w : Nat} {l L : List Char}
    (hL : L ∈ ((l.splitOn '\n').map (wrapLine w)).flatten) :
    '\n' ∉ L ∧ wrapLine w L = [L] := by
  obtain ⟨part, hpart, hLpart⟩ := List.mem_flatten.mp hL
  obtain ⟨line, hline, rfl⟩ := List.mem_map.mp hpart
  have hnl : '\n' ∉ line :=
    fun hn => (splitOn_parts '\n' l line hline '\n' hn).1 rfl
  exact wrapLine_self hnl L hLpart

theorem wordwrapChars_idem (w : Nat) (l : List Char) :
    wordwrapChars w (wordwrapChars w l) = wordwrapChars w l := by
  simp only [wordwrapChars]
  rw [List.splitOn_intercalate _ '\n' (fun L hL => (mem_outLines hL).1)
      (outLines_ne_nil w l)]
  rw [List.map_congr_left (fun L hL => (mem_outLines hL).2),
      flatten_singletons]

theorem wordwrapString_idem (limit : Nat) (s : String) :
    wordwrapString (wordwrapString s limit) limit =
      wordwrapString s limit := by
  simp only [wordwrapString, List.toList_asString]
  rw [wordwrapChars_idem]

/- ## How `Update` acts, case by case -/

theorem Update_key_enter (m : Model) :
    Update m (Msg.key "enter") =
      some ({ m with
                messages := m.messages ++
                  [Entry.prompt
                     (wordwrapString (trimSpace m.textareaValue) wrapWidth),
                   Entry.spinnerLine m.spinnerFrame],
                textareaValue := "",
                waiting := true },
            [Cmd.spinnerTick chatSpinnerID,
             Cmd.getResponse
               (wordwrapString (trimSpace m.textareaValue) wrapWidth)]) :=
  rfl

theorem Update_key_quit (m : Model) (s : String)
    (hq : isQuitKey s = true) :
    Update m (Msg.key s) =
      some ({ m with textareaValue := textareaKey m.textareaValue s },
            [Cmd.quit]) := by
  simp [Update, hq]

theorem Update_key_other (m : Model) (s : String)
    (hq : isQuitKey s = false) (he : s ≠ "enter") :
    Update m (Msg.key s) =
      some ({ m with textareaValue := textareaKey m.textareaValue s },
            []) := by
  simp [Update, hq, he]

theorem Update_tick_chat_waiting (m : Model) (hw : m.waiting = true)
    (hne : m.messages ≠ []) :
    Update m (Msg.tick chatSpinnerID) =
      some ({ m with
                spinnerFrame := m.spinnerFrame + 2,
                messages := m.messages.dropLast ++
                  [Entry.spinnerLine (m.spinnerFrame + 2)],
                textareaValue := "" },
            [Cmd.spinnerTick chatSpinnerID]) := by
  simp [Update, hw, chatSpinnerID, replaceLast, hne]

theorem Update_tick_chat_not_waiting (m : Model) (hw : m.waiting = false) :
    Update m (Msg.tick chatSpinnerID) = some (m, []) := by
  simp [Update, hw, chatSpinnerID]
  rw [← hw]

theorem Update_tick_header_done (m : Model)
    (hd : m.header.requestDone = true) :
    Update m (Msg.tick headerSpinnerID) = some (m, []) := by
  simp [Update, hd, chatSpinnerID, headerSpinnerID]

theorem Update_tick_header_active (m : Model)
    (hd : m.header.requestDone = false) :
    Update m (Msg.tick headerSpinnerID) =
      some ({ m with header :=
                { m.header with
                    statusSpinnerFrame := m.header.statusSpinnerFrame + 1 } },
            [Cmd.spinnerTick headerSpinnerID]) := by
  simp [Update, hd, chatSpinnerID, headerSpinnerID]

theorem Update_tick_unknown (m : Model) (id : Nat) (h0 : id ≠ 0)
    (hc : id ≠ chatSpinnerID) (hh : id ≠ headerSpinnerID) :
    Update m (Msg.tick id) = some (m, []) := by
  simp [Update, h0, hc, hh]

theorem Update_response_err (m : Model) (r e : String) :
    Update m (Msg.response r (some e)) =
      some ({ m with waiting := false, err := some e }, []) :=
  rfl

theorem Update_response_ok (m : Model) (r : String)
    (hne : m.messages ≠ []) :
    Update m (Msg.response r none) =
      some ({ m with
                waiting := false,
                messages := m.messages.dropLast ++
                  [Entry.response (wordwrapString r wrapWidth)] },
            []) := by
  simp [Update, replaceLast, hne]

theorem Update_status_err (m : Model) (e : String) :
    Update m (Msg.status (some e)) =
      some ({ m with
                header := { m.header with requestDone := true },
                err := some e }, []) :=
  rfl

theorem Update_status_ok (m : Model) :
    Update m (Msg.status none) =
      some ({ m with
                header := { m.header with requestDone := true,
                                          requestSuccess := true } },
            []) :=
  rfl

theorem Update_errMsg (m : Model) (e : String) :
    Update m (Msg.errMsg e) = some ({ m with err := some e }, []) :=
  rfl

theorem applyMsg_eq_some {g : GState} {msg : Msg} {m : Model}
    {cmds : List Cmd} (h : Update g.model msg = some (m, cmds)) :
    applyMsg g msg =
      some { g with model := m,
                    pendingChats := g.pendingChats ++ dispatchedChats cmds } := by
  simp [applyMsg, h]

theorem applyRespond_eq_some {g : GState} {message reply : String}
    {m : Model} {cmds : List Cmd}
    (h : Update g.model (Msg.response reply none) = some (m, cmds)) :
    applyRespond g message reply =
      some { model := m,
             history := g.history ++
               [{ role := Role.user, content := message },
                { role := Role.assistant, content := reply }],
             pendingChats := g.pendingChats.erase message ++
               dispatchedChats cmds,
             statusPending := g.statusPending } := by
  simp [applyRespond, h]

theorem applyStatus_eq_some {g : GState} {e : Option String} {m : Model}
    {cmds : List Cmd} (h : Update g.model (Msg.status e) = some (m, cmds)) :
    applyStatus g e =
      some { model := m,
             history := g.history,
             pendingChats := g.pendingChats ++ dispatchedChats cmds,
             statusPending := false } := by
  simp [applyStatus, h]

/- ## The loop invariant holds on every reachable state -/

theorem Inv_initialG : Inv initialG := by
  refine ⟨rfl, ?_, ?_⟩ <;> simp [initialG, initialModel]

theorem Inv_step {g g' : GState} (hI : Inv g) (hs : Step g g') : Inv g' := by
  obtain ⟨hpar, hge, hlast⟩ := hI
  cases hs with
  | key s h =>
    by_cases hq : isQuitKey s = true
    · rw [applyMsg_eq_some (Update_key_quit g.model s hq)] at h
      obtain rfl := Option.some.inj h
      exact ⟨hpar, fun hb => hge (by simpa [dispatchedChats] using hb),
             hlast⟩
    · by_cases he : s = "enter"
      · subst he
        rw [applyMsg_eq_some (Update_key_enter g.model)] at h
        obtain rfl := Option.some.inj h
        refine ⟨?_, ?_, ?_⟩
        · simpa [Nat.add_mod] using hpar
        · intro _; simp
        · intro _
          simp [List.getLast?_append, isSpinnerLine]
      · rw [applyMsg_eq_some (Update_key_other g.model s
            (by simpa using hq) he)] at h
        obtain rfl := Option.some.inj h
        exact ⟨hpar, fun hb => hge (by simpa [dispatchedChats] using hb),
               hlast⟩
  | textEdit v =>
    exact ⟨hpar, hge, hlast⟩
  | tick id hpos h =>
    by_cases hc : id = chatSpinnerID
    · subst hc
      by_cases hw : g.model.waiting = true
      · have hne : g.model.messages ≠ [] := by
          have := hge (Or.inl hw)
          intro hnil; rw [hnil] at this; simp at this
        rw [applyMsg_eq_some (Update_tick_chat_waiting g.model hw hne)] at h
        obtain rfl := Option.some.inj h
        have hlen : (g.model.messages.dropLast ++
            [Entry.spinnerLine (g.model.spinnerFrame + 2)]).length =
            g.model.messages.length := by
          have h1 : 1 ≤ g.model.messages.length := by
            have := hge (Or.inl hw); omega
          simp [List.length_dropLast]
          omega
        refine ⟨?_, ?_, ?_⟩
        · simpa [hlen] using hpar
        · intro _; rw [hlen]; exact hge (Or.inl hw)
        · intro _; simp [List.getLast?_append, isSpinnerLine]
      · have hw' : g.model.waiting = false := by
          cases hb : g.model.waiting
          · rfl
          · exact absurd hb hw
        rw [applyMsg_eq_some (Update_tick_chat_not_waiting g.model hw')] at h
        obtain rfl := Option.some.inj h
        exact ⟨hpar, fun hb => hge (by simpa [dispatchedChats] using hb),
               hlast⟩
    · by_cases hh : id = headerSpinnerID
      · subst hh
        by_cases hd : g.model.header.requestDone = true
        · rw [applyMsg_eq_some (Update_tick_header_done g.model hd)] at h
          obtain rfl := Option.some.inj h
          exact ⟨hpar, fun hb => hge (by simpa [dispatchedChats] using hb),
                 hlast⟩
        · have hd' : g.model.header.requestDone = false := by
            cases hb : g.model.header.requestDone
            · rfl
            · exact absurd hb hd
          rw [applyMsg_eq_some (Update_tick_header_active g.model hd')] at h
          obtain rfl := Option.some.inj h
          exact ⟨hpar, fun hb => hge (by simpa [dispatchedChats] using hb),
                 hlast⟩
      · rw [applyMsg_eq_some (Update_tick_unknown g.model id
            (Nat.pos_iff_ne_zero.mp hpos) hc hh)] at h
        obtain rfl := Option.some.inj h
        exact ⟨hpar, fun hb => hge (by simpa [dispatchedChats] using hb),
               hlast⟩
  | respond message reply hmem h =>
    have hpend : g.pendingChats ≠ [] := by
      intro hnil; rw [hnil] at hmem; simp at hmem
    have hne : g.model.messages ≠ [] := by
      have := hge (Or.inr hpend)
      intro hnil; rw [hnil] at this; simp at this
    rw [applyRespond_eq_some (Update_response_ok g.model reply hne)] at h
    obtain rfl := Option.some.inj h
    have hlen : (g.model.messages.dropLast ++
        [Entry.response (wordwrapString reply wrapWidth)]).length =
        g.model.messages.length := by
      have h1 : 1 ≤ g.model.messages.length := by
        have := hge (Or.inr hpend); omega
      simp [List.length_dropLast]
      omega
    refine ⟨?_, ?_, ?_⟩
    · simpa [hlen] using hpar
    · intro _; rw [hlen]; exact hge (Or.inr hpend)
    · intro hw; simp at hw
  | status e hsp h =>
    cases e with
    | some e =>
      rw [applyStatus_eq_some (Update_status_err g.model e)] at h
      obtain rfl := Option.some.inj h
      exact ⟨hpar, fun hb => hge (by simpa [dispatchedChats] using hb),
             hlast⟩
    | none =>
      rw [applyStatus_eq_some (Update_status_ok g.model)] at h
      obtain rfl := Option.some.inj h
      exact ⟨hpar, fun hb => hge (by simpa [dispatchedChats] using hb),
             hlast⟩
  | errMsg e h =>
    rw [applyMsg_eq_some (Update_errMsg g.model e)] at h
    obtain rfl := Option.some.inj h
    exact ⟨hpar, fun hb => hge (by simpa [dispatchedChats] using hb),
           hlast⟩

theorem Inv_of_Reach {g : GState} (h : Reach g) : Inv g := by
  induction h with
  | init => exact Inv_initialG
  | step _ hs ih => exact Inv_step ih hs

/- ## Completed turns, counted -/

theorem char_toString_length (c : Char) : (Char.toString c).length = 1 :=
  rfl

theorem applyMsg_key_single (g : GState) (c : Char) :
    applyMsg g (Msg.key (Char.toString c)) =
      some { g with model := { g.model with
        textareaValue :=
          textareaKey g.model.textareaValue (Char.toString c) } } := by
  have hne : Char.toString c ≠ "enter" := by
    intro h
    have := congrArg String.length h
    rw [char_toString_length] at this
    simp [String.length] at this
  by_cases hq : isQuitKey (Char.toString c) = true
  · rw [applyMsg_eq_some (Update_key_quit g.model _ hq)]
    simp [dispatchedChats]
  · rw [applyMsg_eq_some (Update_key_other g.model _ (by simpa using hq) hne)]
    simp [dispatchedChats]

theorem typeChars_eq (l : List Char) :
    ∀ g : GState, ∃ ta, typeChars g l =
      some { g with model := { g.model with textareaValue := ta } } := by
  induction l with
  | nil =>
    intro g
    exact ⟨g.model.textareaValue, rfl⟩
  | cons c cs ih =>
    intro g
    obtain ⟨ta, hta⟩ := ih
      { g with model := { g.model with
          textareaValue :=
            textareaKey g.model.textareaValue (Char.toString c) } }
    refine ⟨ta, ?_⟩
    rw [typeChars, List.foldlM_cons, applyMsg_key_single]
    exact hta

theorem altRoles_succ (n : Nat) :
    altRoles (n + 1) = altRoles n ++ [Role.user, Role.assistant] := by
  rw [altRoles, altRoles, List.replicate_succ', List.flatten_append]
  simp

theorem dropLast_append_pair {α : Type} (l : List α) (a b : α) :
    (l ++ [a, b]).dropLast = l ++ [a] := by
  rw [show l ++ [a, b] = (l ++ [a]) ++ [b] by simp, List.dropLast_concat]

theorem doTurn_quiescent {g : GState} {n : Nat} (hq : Quiescent g n)
    (input reply : String) :
    ∃ g', doTurn g input reply = some g' ∧ Quiescent g' (n + 1) := by
  obtain ⟨hp, hml, hmr, hhl, hhr⟩ := hq
  obtain ⟨ta, hta⟩ := typeChars_eq input.toList g
  rw [doTurn, hta, Option.some_bind]
  rw [applyMsg_eq_some (Update_key_enter _), Option.some_bind]
  simp only [dispatchedChats, hp, List.nil_append]
  have hne :
      (g.model.messages ++
        [Entry.prompt (wordwrapString (trimSpace ta) wrapWidth),
         Entry.spinnerLine g.model.spinnerFrame]) ≠ [] := by
    simp
  rw [applyRespond_eq_some (Update_response_ok _ reply hne)]
  refine ⟨_, rfl, ?_, ?_, ?_, ?_, ?_⟩
  · simp [dispatchedChats]
  · simp only [dropLast_append_pair]
    simp only [List.length_append, List.length_singleton, hml]
    omega
  · simp only [dropLast_append_pair]
    rw [List.map_append, List.map_append, hmr, altRoles_succ]
    simp [entryRole]
  · simp only [List.length_append, hhl, List.length_cons, List.length_nil]
    omega
  · rw [List.map_append, hhr, altRoles_succ]
    simp

theorem runTurns_quiescent {g : GState} {n : Nat} (hq : Quiescent g n)
    (ts : List (String × String)) :
    ∃ g', runTurns g ts = some g' ∧ Quiescent g' (n + ts.length) := by
  induction ts generalizing g n with
  | nil => exact ⟨g, rfl, by simpa using hq⟩
  | cons t ts ih =>
    obtain ⟨g1, h1, hq1⟩ := doTurn_quiescent hq t.1 t.2
    obtain ⟨g', h', hq'⟩ := ih hq1
    refine ⟨g', ?_, by simpa [Nat.add_assoc, Nat.add_comm 1] using hq'⟩
    rw [runTurns, h1]
    exact h'

theorem Quiescent_initialG : Quiescent initialG 0 := by
  refine ⟨rfl, rfl, rfl, rfl, rfl⟩

theorem headerStatus_eq_failed {h : HeaderModel} :
    headerStatus h = HeaderStatus.failed ↔
      h.requestDone = true ∧ h.requestSuccess = false := by
  unfold headerStatus
  rcases h1 : h.requestDone <;> rcases h2 : h.requestSuccess <;> simp

/- ## The claims -/

/-- C1, counterexample: in the reachable state right after a submit
(`WaitingFlag` true, 2 transcript entries, 1 outstanding completion),
processing another enter key is NOT ignored: the transcript grows to 4
entries and a second chat completion is dispatched.  The `enter` branch
of `Update` (main.go line 551) has no `waiting` guard. -/
theorem C1_counterexample :
    Reach gEnter ∧ gEnter.model.waiting = true ∧
    gEnter.model.messages.length = 2 ∧ gEnter.pendingChats.length = 1 ∧
    (applyMsg gEnter (Msg.key "enter")).map
      (fun g => (g.model.messages.length, g.pendingChats.length)) =
      some (4, 2) :=
  ⟨Reach.step Reach.init (Step.key "enter" (by decide)),
   by decide, by decide, by decide, by decide⟩

/-- C1, amended: while `WaitingFlag` is true a submit is accepted exactly
as when idle — the enter branch appends a user entry and a fresh
placeholder (transcript grows by 2) and dispatches another chat
completion, so more than one completion can be outstanding at a time. -/
theorem C1_submit_while_waiting (m : Model) (_hw : m.waiting = true) :
    Update m (Msg.key "enter") =
      some ({ m with
                messages := m.messages ++
                  [Entry.prompt
                     (wordwrapString (trimSpace m.textareaValue) wrapWidth),
                   Entry.spinnerLine m.spinnerFrame],
                textareaValue := "",
                waiting := true },
            [Cmd.spinnerTick chatSpinnerID,
             Cmd.getResponse
               (wordwrapString (trimSpace m.textareaValue) wrapWidth)]) ∧
    (m.messages ++
      [Entry.prompt (wordwrapString (trimSpace m.textareaValue) wrapWidth),
       Entry.spinnerLine m.spinnerFrame]).length =
      m.messages.length + 2 := by
  refine ⟨Update_key_enter m, ?_⟩
  simp

/-- C1, witness: the amended theorem applied in the reachable
waiting state `gEnter`. -/
theorem C1_witness :
    gEnter.model.waiting = true ∧
    (Update gEnter.model (Msg.key "enter") =
      some ({ gEnter.model with
                messages := gEnter.model.messages ++
                  [Entry.prompt
                     (wordwrapString (trimSpace gEnter.model.textareaValue)
                       wrapWidth),
                   Entry.spinnerLine gEnter.model.spinnerFrame],
                textareaValue := "",
                waiting := true },
            [Cmd.spinnerTick chatSpinnerID,
             Cmd.getResponse
               (wordwrapString (trimSpace gEnter.model.textareaValue)
                 wrapWidth)]) ∧
    (gEnter.model.messages ++
      [Entry.prompt
         (wordwrapString (trimSpace gEnter.model.textareaValue) wrapWidth),
       Entry.spinnerLine gEnter.model.spinnerFrame]).length =
      gEnter.model.messages.length + 2) :=
  ⟨by decide, C1_submit_while_waiting gEnter.model (by decide)⟩

/-- C2: a `responseMsg` carrying a non-nil error, processed while
`WaitingFlag` is true, clears the flag, records the error in the error
slot, leaves the transcript untouched (same list, hence same count and
same final placeholder entry), emits no command, and does not abort
(the result is `some`, never the out-of-range case). -/
theorem C2_response_error (m : Model) (reply e : String)
    (_hw : m.waiting = true) :
    Update m (Msg.response reply (some e)) =
      some ({ m with waiting := false, err := some e }, []) ∧
    ({ m with waiting := false, err := some e } : Model).messages =
      m.messages :=
  ⟨Update_response_err m reply e, rfl⟩

/-- C2, witness: applied in the reachable waiting state `gEnter`. -/
theorem C2_witness :
    gEnter.model.waiting = true ∧
    (Update gEnter.model (Msg.response "hi" (some "boom")) =
      some ({ gEnter.model with waiting := false, err := some "boom" },
            []) ∧
    ({ gEnter.model with waiting := false, err := some "boom" } :
        Model).messages = gEnter.model.messages) :=
  ⟨by decide, C2_response_error gEnter.model "hi" "boom" (by decide)⟩

/-- C3, counterexample: after a `statusMsg` with an error the header
status is `failed`, but a later `statusMsg` with nil error is NOT
ignored — the `statusMsg` branch (main.go lines 638-648) has no
`requestDone` guard and sets `requestSuccess`, flipping the status to
`succeeded`. -/
theorem C3_counterexample :
    headerStatus mFailed.header = HeaderStatus.failed ∧
    (Update mFailed (Msg.status none)).map
      (fun p => headerStatus p.1.header) = some HeaderStatus.succeeded :=
  ⟨by decide, by decide⟩

/-- C3, amended: once a `statusMsg` has set the status to `failed`,
any later `statusMsg` carrying a non-nil error leaves it `failed`; only
a later nil-error `statusMsg` (which a real run never delivers, the
probe being dispatched exactly once from `Init`) flips it to
`succeeded`. -/
theorem C3_failed_stays_failed_on_error (m : Model) (e : String)
    (hf : headerStatus m.header = HeaderStatus.failed) :
    Update m (Msg.status (some e)) =
      some ({ m with
                header := { m.header with requestDone := true },
                err := some e }, []) ∧
    headerStatus { m.header with requestDone := true } =
      HeaderStatus.failed := by
  refine ⟨Update_status_err m e, ?_⟩
  exact headerStatus_eq_failed.mpr ⟨rfl, (headerStatus_eq_failed.mp hf).2⟩

/-- C3, witness: the amended theorem applied in the failed state. -/
theorem C3_witness :
    headerStatus mFailed.header = HeaderStatus.failed ∧
    (Update mFailed (Msg.status (some "again")) =
      some ({ mFailed with
                header := { mFailed.header with requestDone := true },
                err := some "again" }, []) ∧
    headerStatus { mFailed.header with requestDone := true } =
      HeaderStatus.failed) :=
  ⟨by decide, C3_failed_stays_failed_on_error mFailed "again" (by decide)⟩

/-- C4, counterexample: submitting the empty initial input (empty after
trimming) is NOT a no-op: two transcript entries are appended,
`WaitingFlag` is set, and a chat completion for the empty message is
dispatched.  The enter branch (main.go lines 551-571) never checks for
an empty message. -/
theorem C4_counterexample :
    trimSpace initialModel.textareaValue = "" ∧
    initialModel.messages.length = 0 ∧ initialModel.waiting = false ∧
    (Update initialModel (Msg.key "enter")).map
      (fun p => (p.1.messages.length, p.1.waiting, p.2)) =
      some (2, true,
        [Cmd.spinnerTick chatSpinnerID, Cmd.getResponse ""]) :=
  ⟨by decide, by decide, by decide, by decide⟩

/-- C4, amended: a submit whose input is empty after trimming is
processed like any other submit — it appends a user entry with empty
content and a placeholder, sets `WaitingFlag`, and dispatches a chat
completion for the empty message. -/
theorem C4_empty_submit (m : Model)
    (ht : trimSpace m.textareaValue = "") :
    Update m (Msg.key "enter") =
      some ({ m with
                messages := m.messages ++
                  [Entry.prompt "", Entry.spinnerLine m.spinnerFrame],
                textareaValue := "",
                waiting := true },
            [Cmd.spinnerTick chatSpinnerID, Cmd.getResponse ""]) := by
  have hww : wordwrapString (trimSpace m.textareaValue) wrapWidth = "" := by
    rw [ht]; rfl
  rw [Update_key_enter, hww]

/-- C4, witness: the amended theorem applied at the initial state. -/
theorem C4_witness :
    trimSpace initialModel.textareaValue = "" ∧
    Update initialModel (Msg.key "enter") =
      some ({ initialModel with
                messages := initialModel.messages ++
                  [Entry.prompt "",
                   Entry.spinnerLine initialModel.spinnerFrame],
                textareaValue := "",
                waiting := true },
            [Cmd.spinnerTick chatSpinnerID, Cmd.getResponse ""]) :=
  ⟨by decide, C4_empty_submit initialModel (by decide)⟩

/-- C5: in every reachable state the transcript length is even whenever
`WaitingFlag` is false (in particular after every completed turn), an odd
length can only coexist with `WaitingFlag` true, and while waiting the
final transcript entry is the unresolved assistant placeholder.  (In
fact the length is always even: each submit appends the user entry and
the placeholder together.) -/
theorem C5_transcript_parity {g : GState} (h : Reach g) :
    (g.model.waiting = false → g.model.messages.length % 2 = 0) ∧
    (g.model.messages.length % 2 = 1 → g.model.waiting = true) ∧
    (g.model.waiting = true →
      g.model.messages.getLast?.map isSpinnerLine = some true) := by
  obtain ⟨hpar, _, hlast⟩ := Inv_of_Reach h
  refine ⟨fun _ => hpar, fun hodd => ?_, hlast⟩
  exact absurd hpar (by omega)

/-- C5, witness: applied in the reachable waiting state `gEnter`. -/
theorem C5_witness :
    (gEnter.model.waiting = false →
      gEnter.model.messages.length % 2 = 0) ∧
    (gEnter.model.messages.length % 2 = 1 →
      gEnter.model.waiting = true) ∧
    (gEnter.model.waiting = true →
      gEnter.model.messages.getLast?.map isSpinnerLine = some true) :=
  C5_transcript_parity (Reach.step Reach.init (Step.key "enter" (by decide)))

/-- C6: for every sequence of submit events completed by a successful
reply (N completed turns from the initial state), the transcript holds
exactly 2N entries and the global `chatMessages` history exactly 2N
entries, both in alternating user/assistant order: each completed turn
appends exactly one user and one assistant entry to both. -/
theorem C6_turn_counts (ts : List (String × String)) :
    ∃ g, runTurns initialG ts = some g ∧
      g.model.messages.length = 2 * ts.length ∧
      g.history.length = 2 * ts.length ∧
      g.model.messages.map entryRole = altRoles ts.length ∧
      g.history.map ChatCompletionMessage.role = altRoles ts.length := by
  obtain ⟨g, hg, hq⟩ := runTurns_quiescent Quiescent_initialG ts
  obtain ⟨_, h2, h3, h4, h5⟩ := hq
  exact ⟨g, hg, by simpa using h2, by simpa using h4,
         by simpa using h3, by simpa using h5⟩

/-- C7: a stale spinner tick — positive identity matching neither
spinner, or matching the chat spinner while `WaitingFlag` is false, or
matching the header spinner when the probe is already resolved — leaves
the state exactly unchanged and returns no command at all (in
particular no reschedule). -/
theorem C7_stale_ticks (m : Model) (id : Nat) (hpos : 0 < id)
    (hstale :
      (id ≠ chatSpinnerID ∧ id ≠ headerSpinnerID) ∨
      (id = chatSpinnerID ∧ m.waiting = false) ∨
      (id = headerSpinnerID ∧ m.header.requestDone = true)) :
    Update m (Msg.tick id) = some (m, []) := by
  rcases hstale with ⟨h1, h2⟩ | ⟨h1, h2⟩ | ⟨h1, h2⟩
  · exact Update_tick_unknown m id (Nat.pos_iff_ne_zero.mp hpos) h1 h2
  · subst h1
    exact Update_tick_chat_not_waiting m h2
  · subst h1
    exact Update_tick_header_done m h2

/-- C7, witness: a tick with unknown identity 5 at the initial state. -/
theorem C7_witness :
    0 < 5 ∧ (5 ≠ chatSpinnerID ∧ 5 ≠ headerSpinnerID) ∧
    Update initialModel (Msg.tick 5) = some (initialModel, []) :=
  ⟨by decide, ⟨by decide, by decide⟩,
   C7_stale_ticks initialModel 5 (by decide) (Or.inl ⟨by decide, by decide⟩)⟩

/-- C8, counterexample: in a reachable state with `WaitingFlag` true and
the input buffer holding the typed character `a`, processing a chat
spinner tick RESETS the input buffer to empty — the tick handler calls
`m.textarea.Reset()` (main.go line 589) — contradicting that the input
buffer is left unchanged. -/
theorem C8_counterexample :
    Reach gTyped ∧ gTyped.model.waiting = true ∧
    gTyped.model.textareaValue = "a" ∧
    (Update gTyped.model (Msg.tick chatSpinnerID)).map
      (fun p => p.1.textareaValue) = some "" :=
  ⟨Reach.step
     ((Reach.step Reach.init (Step.key "enter" (by decide))) :
       Reach gEnter)
     (Step.key "a" (by decide)),
   by decide, by decide, by decide⟩

/-- C8, amended: a chat spinner tick processed while `WaitingFlag` is
true advances the spinner frame, re-renders the placeholder in place
(the transcript keeps its length, only its final entry changes),
reschedules the next tick, RESETS the input buffer to empty, and leaves
the header, the error slot, the remaining transcript entries and
`WaitingFlag` unchanged. -/
theorem C8_chat_tick_waiting (m : Model) (hw : m.waiting = true)
    (hne : m.messages ≠ []) :
    Update m (Msg.tick chatSpinnerID) =
      some ({ m with
                spinnerFrame := m.spinnerFrame + 2,
                messages := m.messages.dropLast ++
                  [Entry.spinnerLine (m.spinnerFrame + 2)],
                textareaValue := "" },
            [Cmd.spinnerTick chatSpinnerID]) ∧
    (m.messages.dropLast ++
      [Entry.spinnerLine (m.spinnerFrame + 2)]).length =
      m.messages.length := by
  refine ⟨Update_tick_chat_waiting m hw hne, ?_⟩
  have h1 : 0 < m.messages.length := List.length_pos.mpr hne
  simp [List.length_dropLast]
  omega

/-- C8, witness: the amended theorem applied in the reachable waiting
state `gEnter`. -/
theorem C8_witness :
    gEnter.model.waiting = true ∧ gEnter.model.messages ≠ [] ∧
    (Update gEnter.model (Msg.tick chatSpinnerID) =
      some ({ gEnter.model with
                spinnerFrame := gEnter.model.spinnerFrame + 2,
                messages := gEnter.model.messages.dropLast ++
                  [Entry.spinnerLine (gEnter.model.spinnerFrame + 2)],
                textareaValue := "" },
            [Cmd.spinnerTick chatSpinnerID]) ∧
    (gEnter.model.messages.dropLast ++
      [Entry.spinnerLine (gEnter.model.spinnerFrame + 2)]).length =
      gEnter.model.messages.length) :=
  ⟨by decide, by decide,
   C8_chat_tick_waiting gEnter.model (by decide) (by decide)⟩

/-- C9: in every reachable state in which a chat spinner tick can act on
the transcript (`WaitingFlag` true) or a chat completion result can
arrive (one is outstanding), the transcript is non-empty, the embedded
slice operation `append(m.messages[:len(m.messages)-1], _)` succeeds for
any replacement entry, and processing the chat tick or the successful
`responseMsg` never hits the out-of-range abort. -/
theorem C9_no_out_of_range {g : GState} (h : Reach g)
    (hbusy : g.model.waiting = true ∨ g.pendingChats ≠ []) :
    g.model.messages ≠ [] ∧
    (∀ e : Entry, (replaceLast g.model.messages e).isSome = true) ∧
    (Update g.model (Msg.tick chatSpinnerID)).isSome = true ∧
    (∀ reply : String,
      (Update g.model (Msg.response reply none)).isSome = true) := by
  obtain ⟨_, hge, _⟩ := Inv_of_Reach h
  have h2 := hge hbusy
  have hne : g.model.messages ≠ [] := by
    intro hnil
    rw [hnil] at h2
    simp at h2
  refine ⟨hne, fun e => by simp [replaceLast, hne], ?_, fun reply => ?_⟩
  · by_cases hw : g.model.waiting = true
    · rw [Update_tick_chat_waiting g.model hw hne]
      rfl
    · have hw' : g.model.waiting = false := by
        cases hb : g.model.waiting
        · rfl
        · exact absurd hb hw
      rw [Update_tick_chat_not_waiting g.model hw']
      rfl
  · rw [Update_response_ok g.model reply hne]
    rfl

/-- C9, witness: applied in the reachable waiting state `gEnter`. -/
theorem C9_witness :
    gEnter.model.messages ≠ [] ∧
    (replaceLast gEnter.model.messages
      (Entry.response "hi")).isSome = true ∧
    (Update gEnter.model (Msg.tick chatSpinnerID)).isSome = true ∧
    (Update gEnter.model (Msg.response "hi" none)).isSome = true :=
  ⟨(C9_no_out_of_range
      (Reach.step Reach.init (Step.key "enter" (by decide)))
      (Or.inl (by decide))).1,
   (C9_no_out_of_range
      (Reach.step Reach.init (Step.key "enter" (by decide)))
      (Or.inl (by decide))).2.1 (Entry.response "hi"),
   (C9_no_out_of_range
      (Reach.step Reach.init (Step.key "enter" (by decide)))
      (Or.inl (by decide))).2.2.1,
   (C9_no_out_of_range
      (Reach.step Reach.init (Step.key "enter" (by decide)))
      (Or.inl (by decide))).2.2.2 "hi"⟩

/-- C10: the word-wrap used on submitted input and replies (modelled
from the spec, the muesli/reflow implementation being an external
dependency absent from the sources) is stable at the program's fixed
wrap width: wrapping already-wrapped text reproduces it exactly. -/
theorem C10_wordwrap_stable (s : String) :
    wordwrapString (wordwrapString s wrapWidth) wrapWidth =
      wordwrapString s wrapWidth :=
  wordwrapString_idem wrapWidth s

end Bubblechat
